import Mathlib

/-!
Shallow embedding of the indexing-and-retrieval pipeline of `db_filling.py`
(class `ObsidianIndexer`) for verification of its specification.

The persistent store (PostgreSQL tables `source_documents` and
`document_chunks`) is modelled as an explicit state `Db`; every SQL statement
that mutates the store is mirrored both by the state change and by an entry
appended to the ghost field `Db.writes`, so "performs no store writes" is
expressible as equality of states (the ghost log included).  External
collaborators (the Ollama embedding service, the langchain Markdown splitter,
the SHA-256 hasher) are modelled as function parameters, exactly as the code
treats them: opaque calls whose results flow through the pipeline.
Floating-point values exchanged with the store are modelled as rationals; the
real-valued normalization arithmetic of lines 160-164 is modelled separately
(see `unitize`, `round8`) over `ℝ`.
-/

/-- A row of the `source_documents` table: `id`, `file_path UNIQUE`,
`file_hash`, `last_indexed_at` (timestamps modelled as `Nat`). -/
structure SourceDocument where
  id : Nat
  file_path : String
  file_hash : String
  last_indexed_at : Nat
deriving DecidableEq, Repr

/-- The JSON metadata attached to a chunk by `process_markdown_file`
(lines 89-94): `{file_name, chunk_index, headers, file_path}`. -/
structure ChunkMeta where
  file_name : String
  chunk_index : Nat
  headers : List String
  file_path : String
deriving DecidableEq, Repr

/-- A row of the `document_chunks` table: `source_id REFERENCES
source_documents`, `chunk_text`, `embedding`, `metadata`. -/
structure DocumentChunk where
  source_id : Nat
  chunk_text : String
  embedding : List ℚ
  metadata : ChunkMeta
deriving DecidableEq, Repr

/-- One SQL statement that mutates the store, recorded in the ghost write
log: the `UPDATE`/`DELETE` pair of `update_source_document`'s update branch,
its `INSERT ... RETURNING id`, and the per-chunk `INSERT` of
`insert_chunks`. -/
inductive WriteOp where
  | updateDocument (file_path : String) (file_hash : String) (now : Nat)
  | deleteChunksOf (source_id : Nat)
  | insertDocument (file_path : String) (file_hash : String)
  | insertChunk (source_id : Nat) (chunk_text : String)
deriving DecidableEq, Repr

/-- The state of the backing store: the two tables, the `id` sequence of
`source_documents`, and a ghost log of the write statements executed so far
(never read by any operation). -/
structure Db where
  source_documents : List SourceDocument
  document_chunks : List DocumentChunk
  next_id : Nat
  writes : List WriteOp
deriving DecidableEq, Repr

/-- The SQL lookup `SELECT ... FROM source_documents WHERE file_path = $1`
(first matching row). -/
def find_document (db : Db) (path : String) : Option SourceDocument :=
  db.source_documents.find? fun d => d.file_path == path

/-- `ObsidianIndexer.check_file_needs_update` (lines 103-116): true when no
row exists for the path, otherwise true iff the stored `file_hash` differs
from the given one. -/
def check_file_needs_update (db : Db) (relative_path : String)
    (file_hash : String) : Bool :=
  match find_document db relative_path with
  | none => true
  | some result => result.file_hash != file_hash

/-- `ObsidianIndexer.update_source_document` (lines 118-152): if a row with
the path exists, `UPDATE` its hash and timestamp and `DELETE` all its chunks,
returning its id; otherwise `INSERT` a fresh row and return the new id. -/
def update_source_document (db : Db) (relative_path : String)
    (file_hash : String) (now : Nat) : Db × Nat :=
  match find_document db relative_path with
  | some existing =>
      ({ db with
          source_documents := db.source_documents.map fun d =>
            if d.file_path == relative_path then
              { d with file_hash := file_hash, last_indexed_at := now }
            else d,
          document_chunks :=
            db.document_chunks.filter fun c => c.source_id != existing.id,
          writes := db.writes ++
            [.updateDocument relative_path file_hash now,
             .deleteChunksOf existing.id] },
        existing.id)
  | none =>
      ({ db with
          source_documents := db.source_documents ++
            [⟨db.next_id, relative_path, file_hash, now⟩],
          next_id := db.next_id + 1,
          writes := db.writes ++ [.insertDocument relative_path file_hash] },
        db.next_id)

/-- A segment returned by the external `MarkdownHeaderTextSplitter`
(`langchain`): its `page_content` and the active header stack. -/
structure Segment where
  page_content : String
  headers : List String
deriving DecidableEq, Repr

/-- A processed chunk as built by `process_markdown_file`: the dict
`{"text": chunk_text, "metadata": metadata}`. -/
structure ProcessedChunk where
  text : String
  metadata : ChunkMeta
deriving DecidableEq, Repr

/-- Python's `str.strip()` with no argument: drop whitespace from both ends
(written over the character list so that it evaluates by kernel
reduction). -/
def pyStrip (s : String) : String :=
  (((s.toList.dropWhile Char.isWhitespace).reverse.dropWhile
      Char.isWhitespace).reverse).asString

/-- The loop of `process_markdown_file` over the splitter output
(lines 82-99): `enumerate` the segments, drop those whose stripped content is
empty, and record the enumeration position as `chunk_index`. -/
def process_segments (file_name : String) (file_path : String)
    (segs : List Segment) : List ProcessedChunk :=
  segs.enum.filterMap fun p =>
    let chunk_text := pyStrip p.2.page_content
    if chunk_text = "" then none
    else some ⟨chunk_text, ⟨file_name, p.1, p.2.headers, file_path⟩⟩

/-- A file on disk as the indexer sees it: `name` (`file_path.name`),
`relative_path` (`file_path.relative_to(obsidian_dir)`), its decoded text
content (`none` models a `UnicodeDecodeError`), and the SHA-256 hex digest
computed by `calculate_file_hash` from its bytes. -/
structure FileInfo where
  name : String
  relative_path : String
  content : Option String
  file_hash : String
deriving DecidableEq, Repr

/-- `ObsidianIndexer.process_markdown_file` (lines 67-101): an unreadable
file or one whose stripped content is empty yields `[]`; otherwise the
splitter output is filtered and enumerated by `process_segments`. -/
def process_markdown_file (splitter : String → List Segment)
    (f : FileInfo) : List ProcessedChunk :=
  match f.content with
  | none => []
  | some content =>
      if pyStrip content = "" then []
      else process_segments f.name f.relative_path (splitter content)

/-- `ObsidianIndexer.insert_chunks` (lines 154-178): for each chunk, obtain
the stored embedding vector (the composite of the `get_embedding` service
call, the norm division of line 162 and the 8-decimal serialization of line
164, modelled as the oracle `embed`; its numerics are modelled separately by
`unitize`/`round8`), then `INSERT` the row; any per-chunk failure is caught
and the loop continues with the next chunk. -/
def insert_chunks (embed : String → Except String (List ℚ)) :
    Db → Nat → List ProcessedChunk → Db
  | db, _, [] => db
  | db, source_id, ch :: rest =>
      match embed ch.text with
      | .error _ => insert_chunks embed db source_id rest
      | .ok v =>
          insert_chunks embed
            { db with
              document_chunks :=
                db.document_chunks ++ [⟨source_id, ch.text, v, ch.metadata⟩],
              writes := db.writes ++ [.insertChunk source_id ch.text] }
            source_id rest

/-- `ObsidianIndexer.index_file` (lines 180-208), happy path of the store:
skip when `check_file_needs_update` is false; skip when processing yields no
chunks; otherwise upsert the document row and insert the chunks. -/
def index_file (splitter : String → List Segment)
    (embed : String → Except String (List ℚ)) (now : Nat)
    (db : Db) (f : FileInfo) : Db :=
  if check_file_needs_update db f.relative_path f.file_hash = false then db
  else
    let chunks := process_markdown_file splitter f
    if chunks.isEmpty then db
    else
      let r := update_source_document db f.relative_path f.file_hash now
      insert_chunks embed r.1 r.2 chunks

/-- `ObsidianIndexer.index_all_files` (lines 210-225): one pass, processing
the discovered files strictly one at a time over a single connection. -/
def index_all_files (splitter : String → List Segment)
    (embed : String → Except String (List ℚ)) (now : Nat)
    (db : Db) (files : List FileInfo) : Db :=
  files.foldl (index_file splitter embed now) db

/-- Squared Euclidean distance between two stored vectors; the `<->`
operator of the query in `search_similar` orders by the Euclidean distance
`Real.sqrt (dist2 q v)`, and sorting by `dist2` sorts by that distance. -/
def dist2 (q v : List ℚ) : ℚ :=
  (List.zipWith (fun a b => (a - b) * (a - b)) q v).sum

/-- A row of the result set of `search_similar`'s query: `dc.chunk_text`,
`dc.metadata`, `sd.file_path`, and the distance (carried as its square
`dist_sq`, with the Euclidean distance being `Real.sqrt dist_sq`). -/
structure SearchRow where
  text : String
  metadata : ChunkMeta
  file_path : String
  dist_sq : ℚ
deriving DecidableEq, Repr

/-- Comparison used by the `ORDER BY dc.embedding <-> $1` clause, on the
(squared) distance attached to each joined row. -/
def rowLe (a b : SearchRow) : Prop := a.dist_sq ≤ b.dist_sq

instance : DecidableRel rowLe := fun a b =>
  inferInstanceAs (Decidable (a.dist_sq ≤ b.dist_sq))

instance : IsTotal SearchRow rowLe := ⟨fun a b => le_total a.dist_sq b.dist_sq⟩

instance : IsTrans SearchRow rowLe := ⟨fun _ _ _ => le_trans⟩

/-- `ObsidianIndexer.search_similar` (lines 255-296), given the already
normalized query vector (the query's own embedding call is the same external
composite as in `insert_chunks`): inner-join `document_chunks` with
`source_documents` on `source_id = id`, order by distance to the query
vector, and return the first `limit` rows. -/
def search_similar (db : Db) (query_embedding : List ℚ) (limit : Nat) :
    List SearchRow :=
  let joined := db.document_chunks.filterMap fun c =>
    (db.source_documents.find? fun d => d.id == c.source_id).map fun d =>
      (⟨c.chunk_text, c.metadata, d.file_path,
        dist2 query_embedding c.embedding⟩ : SearchRow)
  (joined.insertionSort rowLe).take limit

/-- C8: the reindex-needed check returns true iff no document row exists for
the path or the stored fingerprint differs from the given one; it returns
false exactly when a row exists whose fingerprint equals the given one. -/
theorem C8_check_file_needs_update_iff (db : Db) (p h : String) :
    (check_file_needs_update db p h = true ↔
      find_document db p = none ∨
        ∃ d, find_document db p = some d ∧ d.file_hash ≠ h) ∧
    (check_file_needs_update db p h = false ↔
      ∃ d, find_document db p = some d ∧ d.file_hash = h) := by
  unfold check_file_needs_update
  cases hf : find_document db p with
  | none => simp
  | some d => simp [bne_iff_ne]

/-- C5: `update_source_document` inserts a fresh document row (and touches no
chunk) when no row with the path exists; when one exists it returns that
row's id, updates the fingerprint and last-indexed timestamp of the rows with
that path, keeps the others and the row count, and deletes exactly the chunk
rows owned by that id, all in the same operation. -/
theorem C5_update_source_document_spec (db : Db) (p h : String) (now : Nat) :
    (find_document db p = none →
      (update_source_document db p h now).1.source_documents =
          db.source_documents ++ [⟨db.next_id, p, h, now⟩] ∧
        (update_source_document db p h now).1.document_chunks =
          db.document_chunks ∧
        (update_source_document db p h now).2 = db.next_id) ∧
    (∀ d, find_document db p = some d →
      (update_source_document db p h now).2 = d.id ∧
      (∀ e ∈ (update_source_document db p h now).1.source_documents,
          e.file_path = p → e.file_hash = h ∧ e.last_indexed_at = now) ∧
      (∀ e ∈ db.source_documents, e.file_path ≠ p →
          e ∈ (update_source_document db p h now).1.source_documents) ∧
      (update_source_document db p h now).1.source_documents.length =
        db.source_documents.length ∧
      (∀ c, c ∈ (update_source_document db p h now).1.document_chunks ↔
          c ∈ db.document_chunks ∧ c.source_id ≠ d.id)) := by
  constructor
  · intro hf
    simp [update_source_document, hf]
  · intro d hf
    refine ⟨?_, ?_, ?_, ?_, ?_⟩
    · simp [update_source_document, hf]
    · intro e he hep
      simp only [update_source_document, hf, List.mem_map] at he
      obtain ⟨e0, _, rfl⟩ := he
      by_cases h0 : e0.file_path == p
      · rw [if_pos h0]
        exact ⟨rfl, rfl⟩
      · rw [if_neg h0] at hep
        exact absurd hep (by simpa using h0)
    · intro e he hep
      simp only [update_source_document, hf, List.mem_map]
      exact ⟨e, he, by simp [beq_iff_eq, hep]⟩
    · simp [update_source_document, hf]
    · intro c
      simp [update_source_document, hf, List.mem_filter, bne_iff_ne]

/-- C10: when processing a file yields zero chunks (unreadable, empty, or
whitespace-only content, or every segment stripped empty), `index_file`
leaves the store exactly as it was: no row inserted, updated or deleted, no
write logged — in particular any stale document row and its chunks
survive. -/
theorem C10_zero_chunks_no_writes (splitter : String → List Segment)
    (embed : String → Except String (List ℚ)) (now : Nat) (db : Db)
    (f : FileInfo) (hempty : process_markdown_file splitter f = []) :
    index_file splitter embed now db f = db := by
  unfold index_file
  split
  · rfl
  · simp [hempty]

/-- C10 witness: a whitespace-only file over a store already holding a
document row (stale fingerprint "h1") and a chunk row for that path; the
indexing step leaves both rows and the write log exactly as they were. -/
theorem C10_zero_chunks_no_writes_witness :
    process_markdown_file (fun _ => [])
      ⟨"a.md", "a.md", some "  \n ", "h2"⟩ = [] ∧
    index_file (fun _ => []) (fun _ => .ok [1]) 9
      ⟨[⟨1, "a.md", "h1", 0⟩], [⟨1, "old", [1], ⟨"a.md", 0, [], "a.md"⟩⟩],
        2, []⟩
      ⟨"a.md", "a.md", some "  \n ", "h2"⟩ =
      ⟨[⟨1, "a.md", "h1", 0⟩], [⟨1, "old", [1], ⟨"a.md", 0, [], "a.md"⟩⟩],
        2, []⟩ :=
  ⟨by decide, C10_zero_chunks_no_writes _ _ _ _ _ (by decide)⟩

/-- C1 (amended): when the stored fingerprint for a file's path equals the
file's current hash, `index_file` skips the file entirely — even when that
document owns zero chunk rows and re-chunking would succeed; such a document
is reconciled only once the file's content (hence its fingerprint)
changes. -/
theorem C1_fingerprint_match_skips (splitter : String → List Segment)
    (embed : String → Except String (List ℚ)) (now : Nat) (db : Db)
    (f : FileInfo) (d : SourceDocument)
    (hfind : find_document db f.relative_path = some d)
    (hhash : d.file_hash = f.file_hash) :
    index_file splitter embed now db f = db := by
  have hc : check_file_needs_update db f.relative_path f.file_hash = false := by
    simp [check_file_needs_update, hfind, hhash]
  simp [index_file, hc]

/-- C1 counterexample: the store's only document has fingerprint "h" and no
chunk rows; the file's content is unchanged (hash "h") and would split into
one embeddable chunk, yet the pass returns the store unchanged with an empty
write log — the document is skipped, not re-chunked, and stays
chunk-less. -/
theorem C1_chunkless_doc_skipped_counterexample :
    Db.document_chunks ⟨[⟨1, "a.md", "h", 0⟩], [], 2, []⟩ = [] ∧
    process_markdown_file (fun _ => [⟨"hello", ["A"]⟩])
      ⟨"a.md", "a.md", some "# A\nhello", "h"⟩ ≠ [] ∧
    index_file (fun _ => [⟨"hello", ["A"]⟩]) (fun _ => .ok [1]) 5
      ⟨[⟨1, "a.md", "h", 0⟩], [], 2, []⟩
      ⟨"a.md", "a.md", some "# A\nhello", "h"⟩ =
      ⟨[⟨1, "a.md", "h", 0⟩], [], 2, []⟩ :=
  ⟨rfl, by decide, by decide⟩

/-- C1 witness for the amended statement: a concrete store and unchanged file
on which the skip happens. -/
theorem C1_fingerprint_match_skips_witness :
    find_document ⟨[⟨1, "b.md", "k", 0⟩], [], 2, []⟩ "b.md" =
      some ⟨1, "b.md", "k", 0⟩ ∧
    index_file (fun _ => [⟨"x", []⟩]) (fun _ => .ok [1]) 3
      ⟨[⟨1, "b.md", "k", 0⟩], [], 2, []⟩ ⟨"b.md", "b.md", some "x", "k"⟩ =
      ⟨[⟨1, "b.md", "k", 0⟩], [], 2, []⟩ :=
  ⟨by decide,
    C1_fingerprint_match_skips _ _ _ _ _ ⟨1, "b.md", "k", 0⟩ (by decide) rfl⟩

/-- Inserting chunks touches only the `document_chunks` table and the write
log, never the `source_documents` table. -/
theorem insert_chunks_source_documents
    (embed : String → Except String (List ℚ)) (cs : List ProcessedChunk) :
    ∀ (db : Db) (sid : Nat),
      (insert_chunks embed db sid cs).source_documents =
        db.source_documents := by
  induction cs with
  | nil => intro db sid; rfl
  | cons c cs ih =>
      intro db sid
      unfold insert_chunks
      cases embed c.text with
      | error e => exact ih db sid
      | ok v => exact ih _ sid

/-- The reindex-needed check is false exactly when a document row with the
path exists and carries the given fingerprint. -/
theorem check_file_needs_update_eq_false_iff (db : Db) (p h : String) :
    check_file_needs_update db p h = false ↔
      ∃ d, find_document db p = some d ∧ d.file_hash = h := by
  unfold check_file_needs_update
  cases hf : find_document db p with
  | none => simp
  | some d => simp [bne_iff_ne]

/-- The document updater of `update_source_document` never changes a row's
path. -/
theorem update_row_file_path (p h : String) (now : Nat)
    (d : SourceDocument) :
    ((if d.file_path == p then
        { d with file_hash := h, last_indexed_at := now } else d) :
      SourceDocument).file_path = d.file_path := by
  split <;> rfl

/-- After upserting a path, the lookup for that path finds a row carrying the
new fingerprint. -/
theorem check_false_after_update (db : Db) (p h : String) (now : Nat) :
    check_file_needs_update (update_source_document db p h now).1 p h =
      false := by
  rw [check_file_needs_update_eq_false_iff]
  unfold update_source_document
  cases hf : find_document db p with
  | none =>
      refine ⟨⟨db.next_id, p, h, now⟩, ?_, rfl⟩
      unfold find_document at hf ⊢
      simp only [List.find?_append, hf, Option.none_or]
      simp
  | some d =>
      refine ⟨{ d with file_hash := h, last_indexed_at := now }, ?_, rfl⟩
      unfold find_document at hf ⊢
      simp only
      rw [List.find?_map]
      have hpred : ((fun x : SourceDocument => x.file_path == p) ∘ fun x =>
          if x.file_path == p then
            { x with file_hash := h, last_indexed_at := now } else x) =
          fun x : SourceDocument => x.file_path == p := by
        funext x
        simp only [Function.comp_apply, update_row_file_path]
      rw [hpred, hf]
      have hx := List.find?_some hf
      simp only [Option.map_some']
      rw [if_pos hx]

/-- Upserting one path leaves the lookup of every other path unchanged. -/
theorem find_document_update_other (db : Db) (p h : String) (now : Nat)
    (q : String) (hne : q ≠ p) :
    find_document (update_source_document db p h now).1 q =
      find_document db q := by
  unfold update_source_document
  cases hf : find_document db p with
  | none =>
      unfold find_document
      simp only [List.find?_append]
      have hpq : (p == q) = false := by
        simp [Ne.symm hne]
      have : (List.find? (fun d : SourceDocument => d.file_path == q)
          [⟨db.next_id, p, h, now⟩]) = none := by
        simp [List.find?, hpq]
      rw [this]
      simp
  | some d =>
      unfold find_document
      simp only
      rw [List.find?_map]
      have hpred : ((fun x : SourceDocument => x.file_path == q) ∘ fun x =>
          if x.file_path == p then
            { x with file_hash := h, last_indexed_at := now } else x) =
          fun x : SourceDocument => x.file_path == q := by
        funext x
        simp only [Function.comp_apply, update_row_file_path]
      rw [hpred]
      cases hq : List.find? (fun d : SourceDocument => d.file_path == q)
          db.source_documents with
      | none => rfl
      | some e =>
          have he := List.find?_some hq
          have heq : e.file_path = q := by simpa using he
          have hep : (e.file_path == p) = false := by
            simp [heq, hne]
          simp only [Option.map_some']
          rw [if_neg (by simp [hep])]

/-- Inserting chunks does not change which document row a path lookup
finds. -/
theorem check_insert_chunks (embed : String → Except String (List ℚ))
    (db : Db) (sid : Nat) (cs : List ProcessedChunk) (p h : String) :
    check_file_needs_update (insert_chunks embed db sid cs) p h =
      check_file_needs_update db p h := by
  unfold check_file_needs_update find_document
  rw [insert_chunks_source_documents]

/-- A file is stable for a store when a pass will not touch it: either its
stored fingerprint matches the file's hash, or its processing yields zero
chunks. -/
def StableFile (splitter : String → List Segment) (f : FileInfo)
    (db : Db) : Prop :=
  check_file_needs_update db f.relative_path f.file_hash = false ∨
    process_markdown_file splitter f = []

/-- Indexing a stable file is a no-op: the store (ghost write log included)
is returned unchanged. -/
theorem index_file_of_stable (splitter : String → List Segment)
    (embed : String → Except String (List ℚ)) (now : Nat) (db : Db)
    (f : FileInfo) (hs : StableFile splitter f db) :
    index_file splitter embed now db f = db := by
  rcases hs with hc | he
  · simp [index_file, hc]
  · unfold index_file
    split
    · rfl
    · simp [he]

/-- After `index_file` runs on a file, that file is stable: either it was
skipped (check already false), or it produced no chunks (nothing written), or
the upsert stored its current fingerprint, making the check false. -/
theorem index_file_establishes_stable (splitter : String → List Segment)
    (embed : String → Except String (List ℚ)) (now : Nat) (db : Db)
    (f : FileInfo) :
    StableFile splitter f (index_file splitter embed now db f) := by
  by_cases hc : check_file_needs_update db f.relative_path f.file_hash = false
  · rw [index_file_of_stable splitter embed now db f (.inl hc)]
    exact .inl hc
  · by_cases he : process_markdown_file splitter f = []
    · rw [index_file_of_stable splitter embed now db f (.inr he)]
      exact .inr he
    · left
      have hbody : index_file splitter embed now db f =
          insert_chunks embed
            (update_source_document db f.relative_path f.file_hash now).1
            (update_source_document db f.relative_path f.file_hash now).2
            (process_markdown_file splitter f) := by
        unfold index_file
        rw [if_neg hc]
        simp only [List.isEmpty_eq_true, he, if_false]
      rw [hbody, check_insert_chunks]
      exact check_false_after_update db f.relative_path f.file_hash now

/-- Indexing a file with a different path does not change the reindex check
of a given path. -/
theorem check_index_file_other (splitter : String → List Segment)
    (embed : String → Except String (List ℚ)) (now : Nat) (db : Db)
    (g : FileInfo) (q h : String) (hne : q ≠ g.relative_path) :
    check_file_needs_update (index_file splitter embed now db g) q h =
      check_file_needs_update db q h := by
  have hfd : find_document (index_file splitter embed now db g) q =
      find_document db q := by
    unfold index_file
    split
    · rfl
    · by_cases he : process_markdown_file splitter g = []
      · simp [he]
      · simp only [List.isEmpty_eq_true, he, if_false]
        have h1 : (insert_chunks embed
            (update_source_document db g.relative_path g.file_hash now).1
            (update_source_document db g.relative_path g.file_hash now).2
            (process_markdown_file splitter g)).source_documents =
            (update_source_document db g.relative_path g.file_hash
              now).1.source_documents :=
          insert_chunks_source_documents embed _ _ _
        unfold find_document
        rw [h1]
        exact find_document_update_other db g.relative_path g.file_hash now
          q hne
  unfold check_file_needs_update
  rw [hfd]

/-- Stability of a file survives the indexing of any file with a different
path. -/
theorem stable_preserved (splitter : String → List Segment)
    (embed : String → Except String (List ℚ)) (now : Nat) (db : Db)
    (f g : FileInfo) (hne : f.relative_path ≠ g.relative_path)
    (hs : StableFile splitter f db) :
    StableFile splitter f (index_file splitter embed now db g) := by
  rcases hs with hc | he
  · exact .inl (by
      rw [check_index_file_other splitter embed now db g f.relative_path
        f.file_hash hne]
      exact hc)
  · exact .inr he

/-- Stability of a file survives a whole pass over files with different
paths. -/
theorem stable_preserved_pass (splitter : String → List Segment)
    (embed : String → Except String (List ℚ)) (now : Nat) (f : FileInfo)
    (files : List FileInfo)
    (hall : ∀ x ∈ files, f.relative_path ≠ x.relative_path) :
    ∀ db : Db, StableFile splitter f db →
      StableFile splitter f (index_all_files splitter embed now db files) := by
  induction files with
  | nil => intro db hs; exact hs
  | cons g gs ih =>
      intro db hs
      have : index_all_files splitter embed now db (g :: gs) =
          index_all_files splitter embed now
            (index_file splitter embed now db g) gs := rfl
      rw [this]
      exact ih (fun x hx => hall x (List.mem_cons_of_mem g hx)) _
        (stable_preserved splitter embed now db f g
          (hall g (List.mem_cons_self g gs)) hs)

/-- After one full pass over files with pairwise-distinct paths, every file
of the pass is stable for the resulting store. -/
theorem pass_establishes_stable (splitter : String → List Segment)
    (embed : String → Except String (List ℚ)) (now : Nat)
    (files : List FileInfo)
    (hdist : files.Pairwise fun a b => a.relative_path ≠ b.relative_path) :
    ∀ db : Db, ∀ f ∈ files,
      StableFile splitter f (index_all_files splitter embed now db files) := by
  induction files with
  | nil => intro db f hf; cases hf
  | cons g gs ih =>
      intro db f hf
      obtain ⟨hg, htl⟩ := List.pairwise_cons.mp hdist
      have hrw : index_all_files splitter embed now db (g :: gs) =
          index_all_files splitter embed now
            (index_file splitter embed now db g) gs := rfl
      rw [hrw]
      rcases List.mem_cons.mp hf with rfl | hmem
      · exact stable_preserved_pass splitter embed now f gs hg _
          (index_file_establishes_stable splitter embed now db f)
      · exact ih htl _ f hmem

/-- A pass over files that are all stable is a no-op. -/
theorem index_all_files_of_stable (splitter : String → List Segment)
    (embed : String → Except String (List ℚ)) (now : Nat)
    (files : List FileInfo) :
    ∀ db : Db, (∀ f ∈ files, StableFile splitter f db) →
      index_all_files splitter embed now db files = db := by
  induction files with
  | nil => intro db _; rfl
  | cons g gs ih =>
      intro db hall
      have hrw : index_all_files splitter embed now db (g :: gs) =
          index_all_files splitter embed now
            (index_file splitter embed now db g) gs := rfl
      rw [hrw, index_file_of_stable splitter embed now db g
        (hall g (List.mem_cons_self g gs))]
      exact ih db (fun f hf => hall f (List.mem_cons_of_mem g hf))

/-- C2: a second full pass over the same files (pairwise-distinct paths,
unchanged contents and hashes) returns the store of the first pass exactly
as it is — same document rows, same chunk rows, and the same ghost write
log, i.e. zero store writes happen on the second pass. -/
theorem C2_second_pass_is_noop (splitter : String → List Segment)
    (embed : String → Except String (List ℚ)) (now1 now2 : Nat) (db : Db)
    (files : List FileInfo)
    (hdist : files.Pairwise fun a b => a.relative_path ≠ b.relative_path) :
    index_all_files splitter embed now2
        (index_all_files splitter embed now1 db files) files =
      index_all_files splitter embed now1 db files :=
  index_all_files_of_stable splitter embed now2 files _
    (pass_establishes_stable splitter embed now1 files hdist db)

/-- C2 witness: a concrete one-file tree, indexed from the empty store and
then re-indexed; the second pass returns the first pass's store
unchanged. -/
theorem C2_second_pass_is_noop_witness :
    ([⟨"a.md", "a.md", some "hello", "h"⟩] : List FileInfo).Pairwise
      (fun a b => a.relative_path ≠ b.relative_path) ∧
    index_all_files (fun s => [⟨s, []⟩]) (fun _ => .ok [1]) 2
        (index_all_files (fun s => [⟨s, []⟩]) (fun _ => .ok [1]) 1
          ⟨[], [], 1, []⟩ [⟨"a.md", "a.md", some "hello", "h"⟩])
        [⟨"a.md", "a.md", some "hello", "h"⟩] =
      index_all_files (fun s => [⟨s, []⟩]) (fun _ => .ok [1]) 1
        ⟨[], [], 1, []⟩ [⟨"a.md", "a.md", some "hello", "h"⟩] :=
  ⟨by decide,
    C2_second_pass_is_noop (fun s => [⟨s, []⟩]) (fun _ => .ok [1]) 1 2
      ⟨[], [], 1, []⟩ [⟨"a.md", "a.md", some "hello", "h"⟩] (by decide)⟩

/-- The chunk indices recorded by the processing loop form a sublist of the
enumeration positions of the full splitter output. -/
theorem process_indices_sublist (fn fp : String) :
    ∀ ps : List (Nat × Segment),
      ((ps.filterMap fun p =>
          if pyStrip p.2.page_content = "" then none
          else some (⟨pyStrip p.2.page_content,
            ⟨fn, p.1, p.2.headers, fp⟩⟩ : ProcessedChunk)).map
        (fun c => c.metadata.chunk_index)).Sublist (ps.map Prod.fst) := by
  intro ps
  induction ps with
  | nil => simp
  | cons p ps ih =>
      by_cases hp : pyStrip p.2.page_content = ""
      · simp only [List.filterMap_cons, if_pos hp, List.map_cons]
        exact ih.cons p.1
      · simp only [List.filterMap_cons, if_neg hp, List.map_cons]
        exact ih.cons₂ p.1

/-- Unfolding of `process_segments` to its enumeration/filter form. -/
theorem process_segments_eq (fn fp : String) (segs : List Segment) :
    process_segments fn fp segs =
      segs.enum.filterMap fun p =>
        if pyStrip p.2.page_content = "" then none
        else some (⟨pyStrip p.2.page_content,
          ⟨fn, p.1, p.2.headers, fp⟩⟩ : ProcessedChunk) := rfl

/-- C9 (amended): the `chunk_index` stored with each persisted chunk is the
segment's zero-based position in the splitter's full output (before segments
with empty stripped content are discarded): recorded indices are strictly
increasing and each points back to the originating segment, and they are the
consecutive sequence `0..n-1` whenever no segment strips to empty — but not
in general. -/
theorem C9_chunk_index_positions (fn fp : String) (segs : List Segment) :
    ((process_segments fn fp segs).map
        (fun c => c.metadata.chunk_index)).Pairwise (· < ·) ∧
    (∀ pc ∈ process_segments fn fp segs,
      ∃ seg, segs[pc.metadata.chunk_index]? = some seg ∧
        pc.text = pyStrip seg.page_content ∧
        pc.metadata.headers = seg.headers) ∧
    ((∀ seg ∈ segs, pyStrip seg.page_content ≠ "") →
      (process_segments fn fp segs).map (fun c => c.metadata.chunk_index) =
        List.range segs.length) := by
  refine ⟨?_, ?_, ?_⟩
  · have hsub := process_indices_sublist fn fp segs.enum
    rw [← process_segments_eq] at hsub
    rw [List.enum_map_fst] at hsub
    exact List.Pairwise.sublist hsub (List.pairwise_lt_range segs.length)
  · intro pc hpc
    rw [process_segments_eq, List.mem_filterMap] at hpc
    obtain ⟨p, hpenum, hF⟩ := hpc
    by_cases hp : pyStrip p.2.page_content = ""
    · rw [if_pos hp] at hF
      cases hF
    · rw [if_neg hp] at hF
      have hpc' := Option.some.inj hF
      refine ⟨p.2, ?_, ?_, ?_⟩
      · have : (p.1, p.2) ∈ segs.enum := by
          rw [Prod.mk.eta]
          exact hpenum
        have := List.mk_mem_enum_iff_getElem?.mp this
        rw [← hpc']
        exact this
      · rw [← hpc']
      · rw [← hpc']
  · intro hne
    rw [process_segments_eq]
    have hcongr : segs.enum.filterMap (fun p =>
        if pyStrip p.2.page_content = "" then none
        else some (⟨pyStrip p.2.page_content,
          ⟨fn, p.1, p.2.headers, fp⟩⟩ : ProcessedChunk)) =
        segs.enum.filterMap ((fun x => some x) ∘ fun p =>
          (⟨pyStrip p.2.page_content,
            ⟨fn, p.1, p.2.headers, fp⟩⟩ : ProcessedChunk)) := by
      apply List.filterMap_congr
      intro p hp
      have hmem : p.2 ∈ segs := by
        have : (p.1, p.2) ∈ segs.enum := by
          rw [Prod.mk.eta]
          exact hp
        have hg : segs.get? p.1 = some p.2 := by
          rw [List.get?_eq_getElem?]
          exact List.mk_mem_enum_iff_getElem?.mp this
        exact List.get?_mem hg
      rw [if_neg (hne p.2 hmem)]
      rfl
    rw [hcongr]
    rw [List.filterMap_eq_map, List.map_map]
    have : ((fun c : ProcessedChunk => c.metadata.chunk_index) ∘
        fun p : Nat × Segment =>
          (⟨pyStrip p.2.page_content,
            ⟨fn, p.1, p.2.headers, fp⟩⟩ : ProcessedChunk)) = Prod.fst := by
      funext p
      rfl
    rw [this, List.enum_map_fst]

/-- C9 counterexample: a splitter output whose middle segment strips to
empty; the two persisted chunks carry chunk indices 0 and 2, not the
consecutive `0..n-1 = [0, 1]` the claim requires. -/
theorem C9_chunk_index_gap_counterexample :
    ((index_file (fun _ => [⟨"a", []⟩, ⟨" ", []⟩, ⟨"b", []⟩])
        (fun _ => .ok [1]) 0 ⟨[], [], 1, []⟩
        ⟨"n.md", "n.md", some "x", "h"⟩).document_chunks.map
      (fun c => c.metadata.chunk_index)) = [0, 2] ∧
    ((index_file (fun _ => [⟨"a", []⟩, ⟨" ", []⟩, ⟨"b", []⟩])
        (fun _ => .ok [1]) 0 ⟨[], [], 1, []⟩
        ⟨"n.md", "n.md", some "x", "h"⟩).document_chunks.map
      (fun c => c.metadata.chunk_index)) ≠
      List.range (index_file (fun _ => [⟨"a", []⟩, ⟨" ", []⟩, ⟨"b", []⟩])
        (fun _ => .ok [1]) 0 ⟨[], [], 1, []⟩
        ⟨"n.md", "n.md", some "x", "h"⟩).document_chunks.length := by
  constructor
  · decide
  · decide

/-- C6: for every query vector and limit, the search returns at most `limit`
rows, in non-decreasing order of distance to the query (stated both on the
squared distance and, via monotonicity of the square root, on the Euclidean
distance itself); every returned row comes from a stored chunk joined with
its owning document's path and carries that chunk's distance; and an empty
chunk table yields the empty list, not an error. -/
theorem C6_search_similar_spec (db : Db) (q : List ℚ) (limit : Nat) :
    (search_similar db q limit).length ≤ limit ∧
    ((search_similar db q limit).map (fun r => r.dist_sq)).Pairwise (· ≤ ·) ∧
    ((search_similar db q limit).map
        (fun r => Real.sqrt (r.dist_sq : ℝ))).Pairwise (· ≤ ·) ∧
    (∀ r ∈ search_similar db q limit,
      ∃ c ∈ db.document_chunks, ∃ d ∈ db.source_documents,
        d.id = c.source_id ∧ r.text = c.chunk_text ∧
        r.metadata = c.metadata ∧ r.file_path = d.file_path ∧
        r.dist_sq = dist2 q c.embedding) ∧
    (db.document_chunks = [] → search_similar db q limit = []) := by
  have hsorted : (search_similar db q limit).Pairwise rowLe := by
    unfold search_similar
    exact List.Pairwise.sublist (List.take_sublist limit _)
      (List.sorted_insertionSort rowLe _)
  refine ⟨?_, ?_, ?_, ?_, ?_⟩
  · exact List.length_take_le _ _
  · exact List.pairwise_map.mpr hsorted
  · refine List.pairwise_map.mpr (hsorted.imp ?_)
    intro a b hab
    exact Real.sqrt_le_sqrt (by exact_mod_cast hab)
  · intro r hr
    have hr' : r ∈ (db.document_chunks.filterMap fun c =>
        (db.source_documents.find? fun d => d.id == c.source_id).map fun d =>
          (⟨c.chunk_text, c.metadata, d.file_path,
            dist2 q c.embedding⟩ : SearchRow)) := by
      have := List.mem_of_mem_take hr
      rwa [List.mem_insertionSort] at this
    rw [List.mem_filterMap] at hr'
    obtain ⟨c, hc, hmap⟩ := hr'
    obtain ⟨d, hfind, hbuild⟩ := Option.map_eq_some'.mp hmap
    refine ⟨c, hc, d, List.mem_of_find?_eq_some hfind, ?_, ?_, ?_, ?_, ?_⟩
    · have := List.find?_some hfind
      simpa using this
    · rw [← hbuild]
    · rw [← hbuild]
    · rw [← hbuild]
    · rw [← hbuild]
  · intro hempty
    simp [search_similar, hempty, List.insertionSort]

/-- The three store operations `index_file` performs on the connection, each
able to fail with a `StoreError`: the SELECT behind
`check_file_needs_update`, the statements of `update_source_document`, and
the per-chunk INSERT of `insert_chunks`.  A failing mutation carries the
state the store reached. -/
structure DbOps where
  check : Db → String → String → Except String Bool
  upsert : Db → String → String → Nat → Except (String × Db) (Db × Nat)
  insert_chunk : Db → DocumentChunk → Except (String × Db) Db

/-- The per-chunk loop of `insert_chunks` over a fallible store: the
`try/except` of lines 157-178 catches both an embedding failure and a
failing INSERT for that one chunk and continues with the next chunk, so the
loop as a whole never fails. -/
def insert_chunks_fallible (ops : DbOps)
    (embed : String → Except String (List ℚ)) :
    Db → Nat → List ProcessedChunk → Db
  | db, _, [] => db
  | db, sid, ch :: rest =>
      match embed ch.text with
      | .error _ => insert_chunks_fallible ops embed db sid rest
      | .ok v =>
          match ops.insert_chunk db ⟨sid, ch.text, v, ch.metadata⟩ with
          | .error (_, db') => insert_chunks_fallible ops embed db' sid rest
          | .ok db' => insert_chunks_fallible ops embed db' sid rest

/-- The body of `index_file`'s `try` block (lines 182-205) over a fallible
store: a failure of the check or of the upsert escapes the body with the
state reached so far. -/
def index_file_try (ops : DbOps) (splitter : String → List Segment)
    (embed : String → Except String (List ℚ)) (now : Nat)
    (db : Db) (f : FileInfo) : Except (String × Db) Db :=
  match ops.check db f.relative_path f.file_hash with
  | .error e => .error (e, db)
  | .ok b =>
      if b = false then .ok db
      else
        let chunks := process_markdown_file splitter f
        if chunks.isEmpty then .ok db
        else
          match ops.upsert db f.relative_path f.file_hash now with
          | .error ed => .error ed
          | .ok (db1, sid) =>
              .ok (insert_chunks_fallible ops embed db1 sid chunks)

/-- The `except Exception` handler of `index_file` (lines 207-208): every
error from the body — store errors included — is caught and logged, and the
call returns normally with whatever state the store reached. -/
def index_file_catch (ops : DbOps) (splitter : String → List Segment)
    (embed : String → Except String (List ℚ)) (now : Nat)
    (db : Db) (f : FileInfo) : Db :=
  match index_file_try ops splitter embed now db f with
  | .ok db' => db'
  | .error (_, db') => db'

/-- `index_all_files` over the fallible store: its loop (lines 221-222)
calls `index_file`, which cannot raise, so the pass always completes and
returns a store, never an error. -/
def index_all_files_fallible (ops : DbOps)
    (splitter : String → List Segment)
    (embed : String → Except String (List ℚ)) (now : Nat)
    (db : Db) (files : List FileInfo) : Db :=
  files.foldl (index_file_catch ops splitter embed now) db

/-- `search_similar` (lines 255-296) over a fallible store: the body has a
`finally` but no `except`, so a failure of the query embedding or of the
SQL fetch (injected as `store_fail`) propagates to the caller; on success
the result is the pure query. -/
def search_similar_fallible (store_fail : Option String)
    (embed_query : Except String (List ℚ)) (db : Db) (limit : Nat) :
    Except String (List SearchRow) :=
  match embed_query with
  | .error e => .error e
  | .ok qv =>
      match store_fail with
      | some e => .error e
      | none => .ok (search_similar db qv limit)

/-- C3 (amended): a store failure while checking, upserting or inserting for
one document is caught inside `index_file` and the pass simply continues
with the remaining documents from the state the store reached — the error is
never surfaced to the caller of the pass; a store failure during a single
search call, by contrast, is surfaced directly to that caller. -/
theorem C3_per_document_store_errors_swallowed :
    (∀ (ops : DbOps) (splitter : String → List Segment)
        (embed : String → Except String (List ℚ)) (now : Nat) (db : Db)
        (f : FileInfo) (rest : List FileInfo) (e : String) (db' : Db),
      index_file_try ops splitter embed now db f = .error (e, db') →
        index_all_files_fallible ops splitter embed now db (f :: rest) =
          index_all_files_fallible ops splitter embed now db' rest) ∧
    (∀ (db : Db) (limit : Nat) (qv : List ℚ) (e : String),
      search_similar_fallible (some e) (.ok qv) db limit = .error e) := by
  constructor
  · intro ops splitter embed now db f rest e db' htry
    have hstep : index_file_catch ops splitter embed now db f = db' := by
      unfold index_file_catch
      rw [htry]
    show List.foldl (index_file_catch ops splitter embed now) db (f :: rest) =
      index_all_files_fallible ops splitter embed now db' rest
    rw [List.foldl_cons, hstep]
    rfl
  · intro db limit qv e
    rfl

/-- C3 counterexample: with a store whose upsert fails for "a.md" (and works
otherwise), the pass over ["a.md", "b.md"] hits a store error on the first
document, yet returns normally and has processed the second document — the
final store's only document row is "b.md", and no error reaches the
caller. -/
theorem C3_pass_continues_after_store_error_counterexample :
    index_file_try
        ⟨fun db p h => .ok (check_file_needs_update db p h),
         fun db p h now =>
           if p = "a.md" then .error ("boom", db)
           else .ok (update_source_document db p h now),
         fun db c => .ok { db with
           document_chunks := db.document_chunks ++ [c],
           writes := db.writes ++ [.insertChunk c.source_id c.chunk_text] }⟩
        (fun s => [⟨s, []⟩]) (fun _ => .ok [1]) 0 ⟨[], [], 1, []⟩
        ⟨"a.md", "a.md", some "x", "h"⟩ =
      .error ("boom", ⟨[], [], 1, []⟩) ∧
    (index_all_files_fallible
        ⟨fun db p h => .ok (check_file_needs_update db p h),
         fun db p h now =>
           if p = "a.md" then .error ("boom", db)
           else .ok (update_source_document db p h now),
         fun db c => .ok { db with
           document_chunks := db.document_chunks ++ [c],
           writes := db.writes ++ [.insertChunk c.source_id c.chunk_text] }⟩
        (fun s => [⟨s, []⟩]) (fun _ => .ok [1]) 0 ⟨[], [], 1, []⟩
        [⟨"a.md", "a.md", some "x", "h"⟩,
         ⟨"b.md", "b.md", some "y", "k"⟩]).source_documents.map
      (fun d => d.file_path) = ["b.md"] := by
  constructor
  · rfl
  · rfl

/-- The embedding service's HTTP response as `get_embedding` sees it: the
status code, the parsed `embedding` field (floats modelled as rationals),
and the response body text used in the error message. -/
structure EmbResponse where
  status : Nat
  embedding : List ℚ
  error_text : String
deriving DecidableEq, Repr

/-- `ObsidianIndexer.get_embedding` (lines 48-65): on status 200 the parsed
vector is returned unconditionally — its values are never inspected — and on
any other status an error carrying the response text is raised. -/
def get_embedding (resp : EmbResponse) : Except String (List ℚ) :=
  if resp.status = 200 then .ok resp.embedding
  else .error ("Ошибка получения эмбеддинга: " ++ resp.error_text)

/-- Squared Euclidean norm of the parsed (rational) vector. -/
def normSqQ (v : List ℚ) : ℚ := (v.map fun x => x * x).sum

/-- Squared Euclidean norm of a real vector; `np.linalg.norm` is its square
root. -/
noncomputable def normSqR (w : List ℝ) : ℝ := (w.map fun x => x * x).sum

/-- The norm division of line 162, `embedding /= np.linalg.norm(embedding)`,
in exact real arithmetic: every component is divided by the Euclidean norm,
with no guard; for a zero vector this is a division by zero (real-number
convention `x / 0 = 0` standing in for the NaNs numpy produces). -/
noncomputable def unitize (v : List ℚ) : List ℝ :=
  v.map fun x : ℚ => (x : ℝ) / Real.sqrt ((normSqQ v : ℝ))

/-- The 8-decimal serialization of line 164 (`f"{x:.8f}"`): rounding to the
nearest multiple of `10⁻⁸`. -/
noncomputable def round8 (x : ℝ) : ℝ := (round (x * 10 ^ 8) : ℤ) / 10 ^ 8

/-- The vector written to the store for a successfully fetched service
vector `v`: divided by its norm (line 162), then serialized with 8 decimal
places into the pgvector literal (line 164). -/
noncomputable def storedVec (v : List ℚ) : List ℝ := (unitize v).map round8

/-- C4: the code evaluated at the failing input. A 200 response whose vector
is all zeros is returned by `get_embedding` as a success — no
embedding-service error is raised — its Euclidean norm is zero, and the
normalization step of line 162 still performs the division, producing the
degenerate zero vector instead of the mandated error. -/
theorem C4_zero_vector_is_not_rejected :
    get_embedding ⟨200, [0, 0, 0], ""⟩ = .ok [0, 0, 0] ∧
    normSqQ [0, 0, 0] = 0 ∧
    unitize [0, 0, 0] = [0, 0, 0] := by
  refine ⟨rfl, by simp [normSqQ], ?_⟩
  simp [unitize, normSqQ]

/-- A sum of squares of rationals is nonnegative. -/
theorem normSqQ_nonneg (v : List ℚ) : 0 ≤ normSqQ v := by
  unfold normSqQ
  induction v with
  | nil => simp
  | cons x v ih =>
      simp only [List.map_cons, List.sum_cons]
      have := mul_self_nonneg x
      linarith

/-- A sum of squares of reals is nonnegative. -/
theorem normSqR_nonneg (w : List ℝ) : 0 ≤ normSqR w := by
  unfold normSqR
  induction w with
  | nil => simp
  | cons x w ih =>
      simp only [List.map_cons, List.sum_cons]
      have := mul_self_nonneg x
      linarith

/-- Unfolding of the squared norm on a cons cell. -/
theorem normSqR_cons (x : ℝ) (w : List ℝ) :
    normSqR (x :: w) = x * x + normSqR w := rfl

/-- Casting a rational vector to the reals preserves the squared norm. -/
theorem normSqR_cast (v : List ℚ) :
    normSqR (v.map fun x : ℚ => (x : ℝ)) = ((normSqQ v : ℚ) : ℝ) := by
  induction v with
  | nil => simp [normSqR, normSqQ]
  | cons x v ih =>
      have h1 : normSqQ (x :: v) = x * x + normSqQ v := rfl
      have h2 : (x :: v).map (fun x : ℚ => (x : ℝ)) =
          (x : ℝ) :: v.map (fun x : ℚ => (x : ℝ)) := rfl
      rw [h2, normSqR_cons, ih, h1, Rat.cast_add, Rat.cast_mul]

/-- Dividing every component by `s` divides the squared norm by `s * s`. -/
theorem normSqR_div (s : ℝ) (w : List ℝ) :
    normSqR (w.map fun y => y / s) = normSqR w / (s * s) := by
  induction w with
  | nil => simp [normSqR]
  | cons x w ih =>
      simp only [List.map_cons, normSqR_cons, ih]
      rw [div_mul_div_comm, div_add_div_same]

/-- The division of line 162 produces an exactly unit vector whenever the
service vector is not the zero vector. -/
theorem unitize_normSq (v : List ℚ) (h0 : normSqQ v ≠ 0) :
    normSqR (unitize v) = 1 := by
  have hQpos : (0 : ℝ) < ((normSqQ v : ℚ) : ℝ) := by
    have h1 : (0 : ℚ) ≤ normSqQ v := normSqQ_nonneg v
    have h2 : (0 : ℚ) < normSqQ v := lt_of_le_of_ne h1 (Ne.symm h0)
    exact_mod_cast h2
  have hs : Real.sqrt ((normSqQ v : ℚ) : ℝ) *
      Real.sqrt ((normSqQ v : ℚ) : ℝ) = ((normSqQ v : ℚ) : ℝ) :=
    Real.mul_self_sqrt (le_of_lt hQpos)
  have hmaps : unitize v = (v.map fun x : ℚ => (x : ℝ)).map
      (fun y => y / Real.sqrt ((normSqQ v : ℚ) : ℝ)) := by
    unfold unitize
    rw [List.map_map]
    rfl
  rw [hmaps, normSqR_div, hs, normSqR_cast, div_self (ne_of_gt hQpos)]

/-- The 8-decimal serialization moves a component by at most half of
`10⁻⁸`. -/
theorem round8_close (x : ℝ) : |round8 x - x| ≤ 1 / 200000000 := by
  unfold round8
  have h : ((round (x * 10 ^ 8) : ℤ) : ℝ) / 10 ^ 8 - x =
      (((round (x * 10 ^ 8) : ℤ) : ℝ) - x * 10 ^ 8) / 10 ^ 8 := by ring
  rw [h, abs_div]
  have h2 : |(10 : ℝ) ^ 8| = 10 ^ 8 := abs_of_pos (by norm_num)
  rw [h2]
  have h3 : |((round (x * 10 ^ 8) : ℤ) : ℝ) - x * 10 ^ 8| ≤ 1 / 2 := by
    rw [abs_sub_comm]
    exact abs_sub_round (x * 10 ^ 8)
  calc |((round (x * 10 ^ 8) : ℤ) : ℝ) - x * 10 ^ 8| / 10 ^ 8
      ≤ (1 / 2) / 10 ^ 8 := by
        apply div_le_div_of_nonneg_right h3
        norm_num
    _ = 1 / 200000000 := by norm_num

/-- Perturbing every component by at most `ε` moves the squared norm by at
most `2ε` times the sum of absolute components plus `nε²`. -/
theorem normSq_perturb (g : ℝ → ℝ) (ε : ℝ) (hε : 0 ≤ ε)
    (hg : ∀ x, |g x - x| ≤ ε) :
    ∀ u : List ℝ, |normSqR (u.map g) - normSqR u| ≤
      2 * ε * (u.map fun x => |x|).sum + (u.length : ℝ) * ε ^ 2 := by
  intro u
  induction u with
  | nil => simp [normSqR]
  | cons x u ih =>
      have hcons : (x :: u).map g = g x :: u.map g := rfl
      rw [hcons, normSqR_cons, normSqR_cons]
      have hgx : |g x| ≤ |x| + ε := by
        have h1 : g x = x + (g x - x) := by ring
        calc |g x| = |x + (g x - x)| := by rw [← h1]
          _ ≤ |x| + |g x - x| := abs_add _ _
          _ ≤ |x| + ε := by have := hg x; linarith
      have key : |g x * g x - x * x| ≤ 2 * ε * |x| + ε ^ 2 := by
        have h1 : g x * g x - x * x = (g x - x) * (g x + x) := by ring
        rw [h1, abs_mul]
        have h2 : |g x + x| ≤ 2 * |x| + ε := by
          calc |g x + x| ≤ |g x| + |x| := abs_add _ _
            _ ≤ 2 * |x| + ε := by linarith
        calc |g x - x| * |g x + x| ≤ ε * (2 * |x| + ε) :=
              mul_le_mul (hg x) h2 (abs_nonneg _) hε
          _ = 2 * ε * |x| + ε ^ 2 := by ring
      have habs : |(g x * g x + normSqR (u.map g)) - (x * x + normSqR u)| ≤
          |g x * g x - x * x| + |normSqR (u.map g) - normSqR u| := by
        have h1 : (g x * g x + normSqR (u.map g)) - (x * x + normSqR u) =
            (g x * g x - x * x) + (normSqR (u.map g) - normSqR u) := by ring
        rw [h1]
        exact abs_add _ _
      have hsum : ((x :: u).map fun y => |y|).sum =
          |x| + (u.map fun y => |y|).sum := rfl
      rw [hsum]
      have hlen : ((x :: u).length : ℝ) = (u.length : ℝ) + 1 := by
        push_cast [List.length_cons]
        ring
      rw [hlen]
      nlinarith [habs, key, ih]

/-- A mapped list sum as a sum over the index type. -/
theorem list_sum_map_eq_fin (f : ℝ → ℝ) (l : List ℝ) :
    (l.map f).sum = ∑ i : Fin l.length, f (l.get i) := by
  conv_lhs => rw [← List.ofFn_get l]
  rw [List.map_ofFn, List.sum_ofFn]
  rfl

/-- Cauchy-Schwarz for lists: the squared sum of absolute components is at
most the dimension times the squared norm. -/
theorem cs_list (l : List ℝ) :
    ((l.map fun x => |x|).sum) ^ 2 ≤ (l.length : ℝ) * normSqR l := by
  have h1 : (l.map fun x => |x|).sum = ∑ i : Fin l.length, |l.get i| :=
    list_sum_map_eq_fin _ l
  have h2 : normSqR l = ∑ i : Fin l.length, l.get i * l.get i :=
    list_sum_map_eq_fin _ l
  have hcs := Finset.sum_mul_sq_le_sq_mul_sq Finset.univ
      (fun i : Fin l.length => |l.get i|) (fun _ => 1)
  simp only [mul_one, one_pow, sq_abs, Finset.sum_const, Finset.card_univ,
    Fintype.card_fin, nsmul_eq_mul] at hcs
  have h3 : (∑ i : Fin l.length, l.get i ^ 2) =
      ∑ i : Fin l.length, l.get i * l.get i := by
    apply Finset.sum_congr rfl
    intro i _
    rw [sq]
  rw [h3] at hcs
  rw [h1, h2]
  calc (∑ i : Fin l.length, |l.get i|) ^ 2
      ≤ (∑ i : Fin l.length, l.get i * l.get i) * (l.length : ℝ) := hcs
    _ = (l.length : ℝ) * ∑ i : Fin l.length, l.get i * l.get i := mul_comm _ _

/-- If a nonnegative square is within `c ≤ 1/2` of `1`, its square root is
within `(3/4)·c` of `1`. -/
theorem sqrt_close_one (s c : ℝ) (hc : |s - 1| ≤ c)
    (hc2 : c ≤ 1 / 2) : |Real.sqrt s - 1| ≤ (3 / 4) * c := by
  have hc0 : 0 ≤ c := le_trans (abs_nonneg _) hc
  have hsle : s ≤ 1 + c := by
    have := abs_le.mp hc
    linarith [this.2]
  have hsge : 1 - c ≤ s := by
    have := abs_le.mp hc
    linarith [this.1]
  have hupper : Real.sqrt s ≤ 1 + (3 / 4) * c := by
    have h1 : s ≤ (1 + (3 / 4) * c) ^ 2 := by nlinarith
    have h2 : (0 : ℝ) ≤ 1 + (3 / 4) * c := by linarith
    calc Real.sqrt s ≤ Real.sqrt ((1 + (3 / 4) * c) ^ 2) :=
          Real.sqrt_le_sqrt h1
      _ = 1 + (3 / 4) * c := Real.sqrt_sq h2
  have hlower : 1 - (3 / 4) * c ≤ Real.sqrt s := by
    by_cases hneg : 1 - (3 / 4) * c ≤ 0
    · exact le_trans hneg (Real.sqrt_nonneg s)
    · push_neg at hneg
      have h1 : (1 - (3 / 4) * c) ^ 2 ≤ s := by nlinarith
      calc 1 - (3 / 4) * c
          = Real.sqrt ((1 - (3 / 4) * c) ^ 2) :=
            (Real.sqrt_sq (le_of_lt hneg)).symm
        _ ≤ Real.sqrt s := Real.sqrt_le_sqrt h1
  rw [abs_le]
  constructor <;> linarith

/-- C7: for every service vector that is not the zero vector (the code's own
precondition for the norm division; dimension at most 10000, which covers
every embedding model the service can host), the vector written to the store
has Euclidean norm exactly 1 after the norm division and still within
`10⁻⁶` of 1 after each component is serialized with 8 decimal places. -/
theorem C7_stored_vector_norm_one (v : List ℚ) (h0 : normSqQ v ≠ 0)
    (hd : v.length ≤ 10000) :
    normSqR (unitize v) = 1 ∧
    |Real.sqrt (normSqR (storedVec v)) - 1| ≤ 1 / 1000000 := by
  have hunit := unitize_normSq v h0
  refine ⟨hunit, ?_⟩
  have hper := normSq_perturb round8 (1 / 200000000) (by norm_num)
    round8_close (unitize v)
  have hS2 := cs_list (unitize v)
  rw [hunit, mul_one] at hS2
  have hSnn : 0 ≤ ((unitize v).map fun x => |x|).sum := by
    apply List.sum_nonneg
    intro a ha
    obtain ⟨b, _, rfl⟩ := List.mem_map.mp ha
    exact abs_nonneg b
  have hlen : ((unitize v).length : ℝ) ≤ 10000 := by
    have h1 : (unitize v).length = v.length := List.length_map _ _
    rw [h1]
    exact_mod_cast hd
  have hS : ((unitize v).map fun x => |x|).sum ≤ 100 := by
    nlinarith [hS2, hSnn, hlen]
  have hsv : storedVec v = (unitize v).map round8 := rfl
  have hw : |normSqR (storedVec v) - 1| ≤
      1 / 1000000 + 1 / 4000000000000 := by
    rw [hsv]
    rw [hunit] at hper
    have hb1 : 2 * (1 / 200000000 : ℝ) *
        ((unitize v).map fun x => |x|).sum ≤
        2 * (1 / 200000000) * 100 := by
      apply mul_le_mul_of_nonneg_left hS
      norm_num
    have hb2 : ((unitize v).length : ℝ) * (1 / 200000000 : ℝ) ^ 2 ≤
        10000 * (1 / 200000000) ^ 2 := by
      apply mul_le_mul_of_nonneg_right hlen
      positivity
    calc |normSqR ((unitize v).map round8) - 1|
        ≤ 2 * (1 / 200000000) * ((unitize v).map fun x => |x|).sum +
          ((unitize v).length : ℝ) * (1 / 200000000) ^ 2 := hper
      _ ≤ 2 * (1 / 200000000) * 100 + 10000 * (1 / 200000000) ^ 2 := by
          linarith
      _ = 1 / 1000000 + 1 / 4000000000000 := by norm_num
  have hfin := sqrt_close_one (normSqR (storedVec v))
    (1 / 1000000 + 1 / 4000000000000) hw (by norm_num)
  calc |Real.sqrt (normSqR (storedVec v)) - 1|
      ≤ (3 / 4) * (1 / 1000000 + 1 / 4000000000000) := hfin
    _ ≤ 1 / 1000000 := by norm_num

/-- C7 witness: the concrete service vector `[1, 0]` (norm 1, dimension 2):
its stored form is unit up to the serialization tolerance. -/
theorem C7_stored_vector_norm_one_witness :
    (normSqQ [1, 0] ≠ 0 ∧ ([1, 0] : List ℚ).length ≤ 10000) ∧
    (normSqR (unitize [1, 0]) = 1 ∧
      |Real.sqrt (normSqR (storedVec [1, 0])) - 1| ≤ 1 / 1000000) :=
  ⟨⟨by simp [normSqQ], by decide⟩,
    C7_stored_vector_norm_one [1, 0] (by simp [normSqQ]) (by decide)⟩
